import Mathlib

/-!
Verification development for the `origin` git forge server.

The definitions below are shallow embeddings of the Go source files:
  internal/hooks/verify.go      (pre-receive signature verification)
  internal/hooks  RunPostReceive (post-receive webhook dispatch)
  internal/webhook deliver      (webhook HTTP delivery)
  internal/ssh/server.go        (public-key auth, host-key lifecycle)
  internal/ssh/handler.go       (SSH command parsing)
  internal/http  gitInfoRefs / gitUploadPack / gitReceivePackDenied
  internal/git/service.go       (pkt-line writer)

Subprocess invocations (sqlite3, git rev-list, git verify-commit,
git upload-pack) are abstracted as oracles: functions from the exact
argument/stdin data the Go code passes to the bytes the child returns.
Everything the Go code itself computes (string parsing, branching,
message formatting, HMAC signing) is translated directly.
-/

set_option maxRecDepth 4000

namespace Origin

/-! ## Go standard-library string helpers -/

/-- The byte class `unicode.IsSpace` tests for the ASCII range: space, tab,
newline, vertical tab, form feed, carriage return.  The inputs handled by
the hooks (SHAs, refs, key lines) are ASCII, so the ASCII subset of the Go
predicate is faithful here. -/
def goSpace (c : Char) : Bool :=
  c = ' ' ∨ c = Char.ofNat 9 ∨ c = Char.ofNat 10 ∨ c = Char.ofNat 11 ∨
  c = Char.ofNat 12 ∨ c = Char.ofNat 13

/-- Split a character list at every separator character, keeping empty
pieces (the semantics of Go `strings.Split` for a one-character separator
and of `strings.FieldsFunc` after filtering). -/
def splitChars (p : Char → Bool) : List Char → List (List Char)
  | [] => [[]]
  | c :: rest =>
    if p c then [] :: splitChars p rest
    else
      match splitChars p rest with
      | [] => [[c]]
      | h :: t => (c :: h) :: t

/-- Go `strings.Fields`: split around runs of whitespace, no empty fields. -/
def goFields (s : String) : List String :=
  ((splitChars goSpace s.data).map String.mk).filter (fun f => f ≠ "")

/-- Go `strings.TrimSpace` (ASCII subset, see `goSpace`). -/
def goTrimSpace (s : String) : String :=
  String.mk (((s.data.dropWhile goSpace).reverse.dropWhile goSpace).reverse)

/-- Go `strings.TrimPrefix`. -/
def goTrimPrefix (s pre : String) : String :=
  if pre.data.isPrefixOf s.data then String.mk (s.data.drop pre.data.length) else s

/-- Go `strings.TrimSuffix`. -/
def goTrimSuffix (s suf : String) : String :=
  if suf.data.isSuffixOf s.data then
    String.mk (s.data.take (s.data.length - suf.data.length))
  else s

/-- Go `strings.Trim s cutset`: remove leading and trailing characters
belonging to `cut`. -/
def goTrimChars (s : String) (cut : List Char) : String :=
  String.mk (((s.data.dropWhile (· ∈ cut)).reverse.dropWhile (· ∈ cut)).reverse)

/-- The parsing idiom used by `listCommits` and `buildAllowedSigners`:
`strings.Split(strings.TrimSpace(out), "\n")`, then per-line `TrimSpace`,
keeping only non-empty lines. -/
def parseGitLines (out : String) : List String :=
  ((splitChars (fun c => c = Char.ofNat 10) (goTrimSpace out).data).map
      (fun l => goTrimSpace (String.mk l))).filter (fun l => l ≠ "")

/-! ## Pre-receive verifier (internal/hooks/verify.go) -/

/-- `strings.Repeat("0", 40)`: the all-zeros SHA-1 marking ref creation or
deletion in the pre-receive protocol. -/
def zeros40 : String := "0000000000000000000000000000000000000000"

/-- The two environment variables `VerifyPreReceive` requires
(`ORIGIN_DATA_PATH`, `ORIGIN_REPO_PATH`).  `ORIGIN_REPO_NAME` and
`ORIGIN_PUSHER_KEY_FINGERPRINT` are only logged there and are omitted. -/
structure PreEnv where
  dataPath : String
  repoPath : String

/-- Oracle for the subprocesses spawned by one `VerifyPreReceive` run
(the repo path and allowed-signers path are fixed for the whole run, so
they are not parameters of the oracle):
 * `sqlite` — stdout of `sqlite3 <db> "SELECT public_key FROM ssh_keys;"`,
   or the error when the command fails;
 * `revList` — stdout of `git -C <repo> rev-list <args>` for the given
   extra argument vector, or the error on non-zero exit;
 * `verify` — result of `git -C <repo> -c gpg.ssh.allowedSignersFile=<f>
   verify-commit <sha>`: `none` on success, `some combinedOutput` on
   non-zero exit. -/
structure PreOracle where
  sqlite : Except String String
  revList : List String → Except String String
  verify : String → Option String

/-- stdout produced by the sqlite3 CLI for the `ssh_keys` query when the
store holds exactly `keys` rows: one `public_key` per line. -/
def sshKeysQueryOutput (keys : List String) : String :=
  String.join (keys.map (fun k => k ++ "\n"))

/-- `buildAllowedSigners` (verify.go): query all public keys, emit one
`* <key>` line per non-empty row; zero rows is a fatal error.  Returns the
file content (the temp-file path plumbing carries no logic; temp-file I/O
is assumed to succeed — the zero-keys check precedes it in the source). -/
def buildAllowedSigners (o : PreOracle) : Except String String :=
  match o.sqlite with
  | Except.error e => Except.error ("query ssh keys: " ++ e)
  | Except.ok out =>
    let content := String.join ((parseGitLines out).map (fun l => "* " ++ l ++ "\n"))
    if content = "" then Except.error "no SSH keys found in database"
    else Except.ok content

/-- `listCommits` (verify.go): run `git rev-list` with
`strings.Fields(revRange)` as extra arguments and parse its stdout. -/
def listCommits (o : PreOracle) (revRange : String) : Except String (List String) :=
  match o.revList (goFields revRange) with
  | Except.error e => Except.error ("git rev-list " ++ revRange ++ ": " ++ e)
  | Except.ok out => Except.ok (parseGitLines out)

/-- The `len(parts) != 3` guard plus the `parts[0] / parts[1] / parts[2]`
projections of the stdin loop. -/
def parseRefLine (line : String) : Option (String × String × String) :=
  match goFields line with
  | [oldSHA, newSHA, refName] => some (oldSHA, newSHA, refName)
  | _ => none

/-- Go byte slicing `s[:n]` (`commitSHA[:7]` in the source; commit SHAs
are ASCII hex, where bytes and characters coincide). -/
def goSlice (s : String) (n : Nat) : String := String.mk (s.data.take n)

/-- Verify each commit in order, exactly as the inner `for` loop of
`VerifyPreReceive` composed with `verifyCommitSignature`.  Besides the
result, the list of commits actually submitted to `git verify-commit`
is returned (the failing commit, if any, is included: it was submitted). -/
def verifyCommits (o : PreOracle) : List String → Except String Unit × List String
  | [] => (Except.ok (), [])
  | c :: rest =>
    match o.verify c with
    | some out =>
      (Except.error ("commit " ++ goSlice c 7 ++ ": unsigned or invalid signature\n" ++ out), [c])
    | none =>
      let r := verifyCommits o rest
      (r.1, c :: r.2)

/-- The stdin loop of `VerifyPreReceive`: skip malformed lines, skip
deletions, pick the rev range, list and verify commits.  Returns the
result together with the trace of commits submitted to verification. -/
def processLines (o : PreOracle) : List String → Except String Unit × List String
  | [] => (Except.ok (), [])
  | line :: rest =>
    match parseRefLine line with
    | none => processLines o rest
    | some (oldSHA, newSHA, _refName) =>
      if newSHA = zeros40 then processLines o rest
      else
        let revRange :=
          if oldSHA = zeros40 then newSHA ++ " --not --all"
          else oldSHA ++ ".." ++ newSHA
        match listCommits o revRange with
        | Except.error e => (Except.error ("list commits: " ++ e), [])
        | Except.ok commits =>
          match verifyCommits o commits with
          | (Except.error e, tr) => (Except.error e, tr)
          | (Except.ok _, tr) =>
            let r := processLines o rest
            (r.1, tr ++ r.2)

/-- `VerifyPreReceive` (verify.go), with stdin already split into lines
(`bufio.Scanner` semantics; a scanner read error is not modelled — it can
only occur after all delivered lines were already processed). -/
def verifyPreReceive (env : PreEnv) (o : PreOracle) (lines : List String) :
    Except String Unit × List String :=
  if env.dataPath = "" ∨ env.repoPath = "" then
    (Except.error "missing required environment variables", [])
  else
    match buildAllowedSigners o with
    | Except.error e => (Except.error ("build allowed signers: " ++ e), [])
    | Except.ok _ => processLines o lines

/-- `runHook "pre-receive"` (main.go): on error, write
`origin: push rejected — <err>\n` to stderr and exit 1 (slog lines are
also written to stderr but carry no protocol meaning and are omitted).
Returns (exit status, bytes written by the rejection `Fprintf`). -/
def runHookPre (r : Except String Unit) : Nat × String :=
  match r with
  | Except.ok _ => (0, "")
  | Except.error msg => (1, "origin: push rejected — " ++ msg ++ "\n")

/-- Claim-side rendering of §4.5: the commits a single stdin line is
supposed to submit — none for malformed lines or deletions, the
`git rev-list` listing over `new --not --all` for ref creations and over
`old..new` otherwise. -/
def claimedLineCommits (o : PreOracle) (line : String) : List String :=
  match parseRefLine line with
  | none => []
  | some (oldSHA, newSHA, _refName) =>
    if newSHA = zeros40 then []
    else
      let revRange :=
        if oldSHA = zeros40 then newSHA ++ " --not --all"
        else oldSHA ++ ".." ++ newSHA
      match listCommits o revRange with
      | Except.ok cs => cs
      | Except.error _ => []

/-- Claim-side: all commits a push is supposed to submit, in stdin order. -/
def claimedSubmission (o : PreOracle) (lines : List String) : List String :=
  (lines.map (claimedLineCommits o)).flatten

/-! ## Post-receive dispatcher (internal/hooks, RunPostReceive) -/

/-- `webhook.PushEvent` with the Go struct field order
(`event, repository, ref, before, after, pusher, timestamp`). -/
structure PushEvent where
  event : String
  repo : String
  ref : String
  before : String
  after : String
  pusher : String
  timestamp : String
deriving DecidableEq

/-- `webhook.Webhook`. -/
structure Webhook where
  url : String
  secret : String

/-- The environment variables `RunPostReceive` reads. -/
structure PostEnv where
  dataPath : String
  repoName : String
  repoPath : String
  pusherFP : String

/-- The event the post-receive loop builds for one stdin line, or `none`
for a line that does not split into exactly three fields.  `now` stands
for `time.Now().UTC().Format(time.RFC3339)`. -/
def pushEventOfLine (env : PostEnv) (now : String) (line : String) : Option PushEvent :=
  match parseRefLine line with
  | some (oldSHA, newSHA, refName) =>
    some { event := "push", repo := env.repoName, ref := refName, before := oldSHA,
           after := newSHA, pusher := env.pusherFP, timestamp := now }
  | none => none

/-- `RunPostReceive`: the `update-server-info` call is best-effort and
carries no data flow; `loadRes` is the outcome of `loadWebhooks`.  Returns
the Go result together with the trace of events handed to
`webhook.Deliver`, in stdin order. -/
def runPostReceive (env : PostEnv) (loadRes : Except String (List Webhook))
    (now : String) (lines : List String) : Except String Unit × List PushEvent :=
  if env.dataPath = "" ∨ env.repoName = "" then
    (Except.error "missing required environment variables", [])
  else
    match loadRes with
    | Except.error _ => (Except.ok (), [])
    | Except.ok whs =>
      if whs.length = 0 then (Except.ok (), [])
      else (Except.ok (), lines.filterMap (pushEventOfLine env now))

/-! ## SHA-256 and HMAC (crypto/sha256, crypto/hmac as used by deliver) -/

/-- Word arithmetic modulo `2 ^ 32`. -/
def add32 (a b : Nat) : Nat := (a + b) % 4294967296

/-- Right rotation of a 32-bit word. -/
def rotr32 (n x : Nat) : Nat := ((x >>> n) + ((x % 2 ^ n) <<< (32 - n))) % 4294967296

def sigBig0 (x : Nat) : Nat := rotr32 2 x ^^^ rotr32 13 x ^^^ rotr32 22 x

def sigBig1 (x : Nat) : Nat := rotr32 6 x ^^^ rotr32 11 x ^^^ rotr32 25 x

def sigSmall0 (x : Nat) : Nat := rotr32 7 x ^^^ rotr32 18 x ^^^ (x >>> 3)

def sigSmall1 (x : Nat) : Nat := rotr32 17 x ^^^ rotr32 19 x ^^^ (x >>> 10)

def chFn (x y z : Nat) : Nat := (x &&& y) ^^^ ((x ^^^ 4294967295) &&& z)

def majFn (x y z : Nat) : Nat := (x &&& y) ^^^ (x &&& z) ^^^ (y &&& z)

/-- The 64 SHA-256 round constants of FIPS 180-4, in decimal. -/
def sha256K : List Nat :=
  [1116352408, 1899447441, 3049323471, 3921009573, 961987163, 1508970993,
   2453635748, 2870763221, 3624381080, 310598401, 607225278, 1426881987,
   1925078388, 2162078206, 2614888103, 3248222580, 3835390401, 4022224774,
   264347078, 604807628, 770255983, 1249150122, 1555081692, 1996064986,
   2554220882, 2821834349, 2952996808, 3210313671, 3336571891, 3584528711,
   113926993, 338241895, 666307205, 773529912, 1294757372, 1396182291,
   1695183700, 1986661051, 2177026350, 2456956037, 2730485921, 2820302411,
   3259730800, 3345764771, 3516065817, 3600352804, 4094571909, 275423344,
   430227734, 506948616, 659060556, 883997877, 958139571, 1322822218,
   1537002063, 1747873779, 1955562222, 2024104815, 2227730452, 2361852424,
   2428436474, 2756734187, 3204031479, 3329325298]

/-- The SHA-256 initial hash value, in decimal. -/
def sha256H0 : List Nat :=
  [1779033703, 3144134277, 1013904242, 2773480762,
   1359893119, 2600822924, 528734635, 1541459225]

/-- Big-endian byte rendering of `v` on `n` bytes. -/
def beBytes (n v : Nat) : List Nat :=
  (List.range n).map (fun i => (v >>> (8 * (n - 1 - i))) % 256)

/-- Split a list into chunks of `n` (the last chunk may be short). -/
def chunkList (n : Nat) (l : List α) : List (List α) :=
  match l with
  | [] => []
  | a :: t =>
    if h : n = 0 then []
    else
      have : ((a :: t).drop n).length < (a :: t).length := by
        simp only [List.length_drop, List.length_cons]
        omega
      (a :: t).take n :: chunkList n ((a :: t).drop n)
termination_by l.length

/-- SHA-256 padding: `0x80`, zeros to 56 mod 64, 8-byte big-endian bit length. -/
def sha256Pad (msg : List Nat) : List Nat :=
  msg ++ [128] ++ List.replicate ((119 - msg.length % 64) % 64) 0 ++ beBytes 8 (msg.length * 8)

/-- Big-endian 32-bit words from a 64-byte block. -/
def blockWords (block : List Nat) : List Nat :=
  (chunkList 4 block).map
    (fun b => ((b.getD 0 0) <<< 24) + ((b.getD 1 0) <<< 16) + ((b.getD 2 0) <<< 8) + b.getD 3 0)

/-- Extend 16 message words to the 64-entry schedule. -/
def sha256Schedule (w16 : List Nat) : Array Nat :=
  (List.range 48).foldl
    (fun a i =>
      let t := i + 16
      a.push (add32 (add32 (sigSmall1 (a.getD (t - 2) 0)) (a.getD (t - 7) 0))
                    (add32 (sigSmall0 (a.getD (t - 15) 0)) (a.getD (t - 16) 0))))
    w16.toArray

/-- One SHA-256 compression round. -/
def sha256Round (k w : Nat) (st : List Nat) : List Nat :=
  let a := st.getD 0 0
  let b := st.getD 1 0
  let c := st.getD 2 0
  let d := st.getD 3 0
  let e := st.getD 4 0
  let f := st.getD 5 0
  let g := st.getD 6 0
  let h := st.getD 7 0
  let t1 := add32 h (add32 (sigBig1 e) (add32 (chFn e f g) (add32 k w)))
  let t2 := add32 (sigBig0 a) (majFn a b c)
  [add32 t1 t2, a, b, c, add32 d t1, e, f, g]

/-- Compress one 64-byte block into the running state. -/
def sha256Block (st : List Nat) (block : List Nat) : List Nat :=
  let w := sha256Schedule (blockWords block)
  let fin := (List.range 64).foldl (fun s i => sha256Round (sha256K.getD i 0) (w.getD i 0) s) st
  List.zipWith add32 st fin

/-- SHA-256 of a byte list (each element a byte value), as 32 digest bytes. -/
def sha256 (msg : List Nat) : List Nat :=
  let final := (chunkList 64 (sha256Pad msg)).foldl sha256Block sha256H0
  (final.map (beBytes 4)).flatten

/-- `crypto/hmac` with SHA-256: block size 64. -/
def hmacSha256 (key msg : List Nat) : List Nat :=
  let k1 := if key.length > 64 then sha256 key else key
  let k2 := k1 ++ List.replicate (64 - k1.length) 0
  sha256 ((k2.map (fun b => b ^^^ 92)) ++ sha256 ((k2.map (fun b => b ^^^ 54)) ++ msg))

/-- Lowercase hex digit, as in `encoding/hex`. -/
def hexChar (n : Nat) : Char :=
  if n < 10 then Char.ofNat (48 + n) else Char.ofNat (87 + n)

/-- `hex.EncodeToString`: two lowercase hex digits per byte. -/
def hexEncode (bytes : List Nat) : String :=
  String.mk ((bytes.map (fun b => [hexChar (b / 16 % 16), hexChar (b % 16)])).flatten)

/-- UTF-8 encoding of one code point (Go `[]byte(string)` semantics). -/
def utf8EncodeChar (n : Nat) : List Nat :=
  if n < 128 then [n]
  else if n < 2048 then [192 + n / 64, 128 + n % 64]
  else if n < 65536 then [224 + n / 4096, 128 + n / 64 % 64, 128 + n % 64]
  else [240 + n / 262144, 128 + n / 4096 % 64, 128 + n / 64 % 64, 128 + n % 64]

/-- Go `[]byte(s)`: the UTF-8 bytes of a string. -/
def utf8Bytes (s : String) : List Nat :=
  (s.data.map (fun c => utf8EncodeChar c.toNat)).flatten

/-! ## Webhook delivery (internal/webhook, deliver) -/

/-- The headers `deliver` sets on the outgoing POST, in source order.
`payload` is the marshalled event body (`json.Marshal` output bytes). -/
def deliverHeaders (wh : Webhook) (payload : List Nat) : List (String × String) :=
  let base := [("Content-Type", "application/json"),
               ("User-Agent", "Origin-Webhook/1.0"),
               ("X-Origin-Event", "push")]
  if wh.secret ≠ "" then
    base ++ [("X-Origin-Signature",
              "sha256=" ++ hexEncode (hmacSha256 (utf8Bytes wh.secret) payload))]
  else base

/-- Header lookup (header names here are distinct, so list lookup matches
`http.Header.Get`). -/
def headerGet (name : String) (hs : List (String × String)) : Option String :=
  (hs.find? (fun h => h.1 = name)).map (fun h => h.2)

/-! ## Lexical path cleaning (Go path/filepath.Clean, unix) -/

/-- Segment processing of `filepath.Clean`: drop empty and `.` segments,
let `..` pop a previous segment, keep `..` at the start of a relative
path, drop `..` at the root of an absolute one.  `stack` holds the kept
segments in reverse. -/
def cleanSegs (rooted : Bool) (stack : List String) : List String → List String
  | [] => stack.reverse
  | seg :: rest =>
    if seg = "" ∨ seg = "." then cleanSegs rooted stack rest
    else if seg = ".." then
      match stack with
      | [] => if rooted then cleanSegs rooted [] rest else cleanSegs rooted [".."] rest
      | top :: tl =>
        if top = ".." then cleanSegs rooted (".." :: top :: tl) rest
        else cleanSegs rooted tl rest
    else cleanSegs rooted (seg :: stack) rest

/-- `strings.Join(segs, "/")`. -/
def joinSegs : List String → String
  | [] => ""
  | [x] => x
  | x :: y :: t => x ++ "/" ++ joinSegs (y :: t)

/-- Go `filepath.Clean` on unix. -/
def filepathClean (path : String) : String :=
  if path = "" then "."
  else
    let rooted := path.data.head? = some (Char.ofNat 47)
    let segs := cleanSegs rooted []
      ((splitChars (fun c => c = Char.ofNat 47) path.data).map String.mk)
    let out := (if rooted then "/" else "") ++ joinSegs segs
    if out = "" then "." else out

/-! ## SSH front-end (internal/ssh) -/

/-- The single (`'`) and double (`"`) quote characters of the
`strings.Trim(name, ...)` cutset in `sanitizeRepoName`. -/
def quoteChars : List Char := [Char.ofNat 39, Char.ofNat 34]

/-- `sanitizeRepoName` (internal/ssh/handler.go): trim a leading `/`, then
a trailing `.git`, then surrounding quotes, then lexically clean. -/
def sanitizeRepoName (name : String) : String :=
  filepathClean (goTrimChars (goTrimSuffix (goTrimPrefix name "/") ".git") quoteChars)

/-- `publicKeyHandler` (internal/ssh/server.go): `dbOk` is whether the
`SELECT COUNT(*) FROM ssh_keys WHERE fingerprint = ?` query succeeded;
`fps` the fingerprint column of the store; `fp` the connecting key's
fingerprint.  Reject on query error, reject on zero matches, else accept. -/
def publicKeyHandler (dbOk : Bool) (fps : List String) (fp : String) : Bool :=
  if dbOk = false then false
  else if fps.count fp = 0 then false
  else true

/-- Observable states of the host-key file: absent, present but not
readable (`os.ReadFile` fails, e.g. mode `0200` or an I/O error), or
readable with the given contents. -/
inductive HostKeyFile where
  | absent
  | unreadable (content : String)
  | readable (content : String)
deriving DecidableEq

/-- `os.ReadFile` on the host-key path. -/
def readKeyFile : HostKeyFile → Option String
  | HostKeyFile.readable c => some c
  | _ => none

/-- Whether the file exists on disk. -/
def keyFileExists : HostKeyFile → Bool
  | HostKeyFile.absent => false
  | _ => true

/-- The contents on disk, when the file exists. -/
def keyFileContents : HostKeyFile → Option String
  | HostKeyFile.absent => none
  | HostKeyFile.unreadable c => some c
  | HostKeyFile.readable c => some c

/-- `ensureHostKey` (internal/ssh/server.go).  `parse` stands for
`gossh.ParsePrivateKey`; `newKeyData`/`newSigner` for the freshly
generated Ed25519 key material and its signer (signers are represented
abstractly as strings).  When the read fails the code generates a key and
writes it (the owner-mode write is assumed to succeed; for an existing
owner-writable file it truncates and replaces the contents).  Returns the
result and the file state after the call. -/
def ensureHostKey (parse : String → Option String) (newKeyData newSigner : String)
    (fs : HostKeyFile) : Except String String × HostKeyFile :=
  match readKeyFile fs with
  | some data =>
    match parse data with
    | none => (Except.error "parse host key", fs)
    | some signer => (Except.ok signer, fs)
  | none => (Except.ok newSigner, HostKeyFile.readable newKeyData)

/-! ## HTTP front-end (internal/http, smart-git endpoints) -/

/-- A repository row as the handlers see it: name and `is_private`. -/
abbrev RepoRow := String × Bool

/-- `SELECT is_private FROM repositories WHERE name = ?` — first matching
row (`name` is UNIQUE in the schema). -/
def repoLookup (store : List RepoRow) (name : String) : Option RepoRow :=
  store.find? (fun r => r.1 = name)

/-- `canReadRepo` (internal/http): missing row means the `db.Get` errors
and the repo is unreadable; a private row is unreadable; else readable. -/
def canReadRepo (store : List RepoRow) (name : String) : Bool :=
  match repoLookup store name with
  | none => false
  | some r => !r.2

/-- `sanitizeRepoPath` (internal/http): trailing `.git`, surrounding
slashes, lexical clean. -/
def sanitizeRepoPath (name : String) : String :=
  filepathClean (goTrimChars (goTrimSuffix name ".git") [Char.ofNat 47])

/-- An HTTP response: status, headers set by the handler, body bytes
(as a string). -/
structure HttpResponse where
  status : Nat
  headers : List (String × String)
  body : String
deriving DecidableEq

/-- `http.StatusText` restricted to the codes these handlers emit. -/
def statusText (code : Nat) : String :=
  if code = 400 then "Bad Request"
  else if code = 403 then "Forbidden"
  else if code = 404 then "Not Found"
  else ""

/-- `http.Error`: plain-text headers, the message plus a newline as body. -/
def httpError (msg : String) (code : Nat) : HttpResponse :=
  { status := code,
    headers := [("Content-Type", "text/plain; charset=utf-8"),
                ("X-Content-Type-Options", "nosniff")],
    body := msg ++ "\n" }

/-- `renderStatus` (internal/http/server.go). -/
def renderStatus (code : Nat) : HttpResponse :=
  httpError (toString code ++ " " ++ statusText code) code

/-- Lowercase hex digits of `n` on 4 positions (`%04x` for the lengths
that occur here). -/
def hex4 (n : Nat) : String :=
  String.mk [hexChar (n / 4096 % 16), hexChar (n / 256 % 16), hexChar (n / 16 % 16), hexChar (n % 16)]

/-- `git.WritePktline`: 4-digit length (payload + 4-digit prefix + the
trailing newline), payload, newline, then the `0000` flush packet. -/
def writePktline (s : String) : String :=
  hex4 ((utf8Bytes s).length + 5) ++ s ++ "\n" ++ "0000"

/-- `gitInfoRefs` (internal/http): `rawRepo` is the `{repo}` path value,
`service` the `?service=` query, `uploadOut` the stdout of
`git upload-pack --stateless-rpc --advertise-refs <repoPath>`. -/
def gitInfoRefs (store : List RepoRow) (uploadOut : String)
    (rawRepo service : String) : HttpResponse :=
  let repoName := sanitizeRepoPath rawRepo
  if service ≠ "git-upload-pack" then
    if service = "git-receive-pack" then
      httpError "push over HTTP is not supported — use SSH" 403
    else renderStatus 400
  else if !canReadRepo store repoName then renderStatus 404
  else
    { status := 200,
      headers := [("Content-Type", "application/x-git-upload-pack-advertisement"),
                  ("Cache-Control", "no-cache")],
      body := writePktline "# service=git-upload-pack" ++ uploadOut }

/-- `gitReceivePackDenied` (internal/http): POST `/{repo}/git-receive-pack`
is refused identically for every repository and request. -/
def gitReceivePackDenied : HttpResponse :=
  httpError "push over HTTP is not supported — use SSH" 403

/-! ## Helper lemmas -/

theorem claimedSubmission_nil (o : PreOracle) : claimedSubmission o [] = [] := rfl

theorem claimedSubmission_cons (o : PreOracle) (l : String) (ls : List String) :
    claimedSubmission o (l :: ls) = claimedLineCommits o l ++ claimedSubmission o ls := by
  simp [claimedSubmission]

theorem verifyCommits_allOk (o : PreOracle) :
    ∀ cs : List String, (∀ c ∈ cs, o.verify c = none) →
      verifyCommits o cs = (Except.ok (), cs)
  | [], _ => rfl
  | c :: rest, h => by
    have hv : o.verify c = none := h c (by simp)
    have ih := verifyCommits_allOk o rest (fun x hx => h x (by simp [hx]))
    simp [verifyCommits, hv, ih]

theorem verifyCommits_fail (o : PreOracle) :
    ∀ (cs : List String) (c out : String),
      cs.find? (fun x => (o.verify x).isSome) = some c → o.verify c = some out →
      (verifyCommits o cs).1 =
        Except.error ("commit " ++ goSlice c 7 ++ ": unsigned or invalid signature\n" ++ out)
  | [], c, out, hfind, _ => by simp at hfind
  | c0 :: rest, c, out, hfind, hc => by
    cases hv : o.verify c0 with
    | some out0 =>
      simp only [List.find?_cons, hv, Option.isSome_some] at hfind
      have hcc : c0 = c := by simpa using hfind
      subst hcc
      rw [hc] at hv
      injection hv with hout
      subst hout
      simp [verifyCommits, hc]
    | none =>
      simp only [List.find?_cons, hv, Option.isSome_none] at hfind
      have ih := verifyCommits_fail o rest c out hfind hc
      simp [verifyCommits, hv, ih]

theorem processLines_allOk (o : PreOracle)
    (hrev : ∀ args, ∃ s, o.revList args = Except.ok s)
    (hver : ∀ c, o.verify c = none) :
    ∀ lines : List String, processLines o lines = (Except.ok (), claimedSubmission o lines)
  | [] => by simp [processLines, claimedSubmission_nil]
  | line :: rest => by
    have ih := processLines_allOk o hrev hver rest
    rw [claimedSubmission_cons]
    cases hp : parseRefLine line with
    | none => simp [processLines, hp, ih, claimedLineCommits]
    | some triple =>
      obtain ⟨oldSHA, newSHA, refName⟩ := triple
      by_cases hz : newSHA = zeros40
      · simp [processLines, hp, hz, ih, claimedLineCommits]
      · obtain ⟨s, hs⟩ :=
          hrev (goFields (if oldSHA = zeros40 then newSHA ++ " --not --all"
                          else oldSHA ++ ".." ++ newSHA))
        have hlist : listCommits o (if oldSHA = zeros40 then newSHA ++ " --not --all"
                          else oldSHA ++ ".." ++ newSHA) = Except.ok (parseGitLines s) := by
          simp [listCommits, hs]
        have hverify := verifyCommits_allOk o (parseGitLines s) (fun c _ => hver c)
        simp [processLines, hp, hz, hlist, hverify, ih, claimedLineCommits]

theorem optionSomeOr (a : α) (x : Option α) : (some a).or x = some a := rfl

theorem optionNoneOr (x : Option α) : (Option.none).or x = x := by cases x <;> rfl

theorem processLines_fail (o : PreOracle)
    (hrev : ∀ args, ∃ s, o.revList args = Except.ok s) :
    ∀ (lines : List String) (c out : String),
      (claimedSubmission o lines).find? (fun x => (o.verify x).isSome) = some c →
      o.verify c = some out →
      (processLines o lines).1 =
        Except.error ("commit " ++ goSlice c 7 ++ ": unsigned or invalid signature\n" ++ out)
  | [], c, out, hfind, _ => by simp [claimedSubmission_nil] at hfind
  | line :: rest, c, out, hfind, hc => by
    rw [claimedSubmission_cons, List.find?_append] at hfind
    cases hhead : (claimedLineCommits o line).find? (fun x => (o.verify x).isSome) with
    | some c1 =>
      rw [hhead, optionSomeOr] at hfind
      have hcc : c1 = c := by simpa using hfind
      subst hcc
      cases hp : parseRefLine line with
      | none => rw [claimedLineCommits, hp] at hhead; simp at hhead
      | some triple =>
        obtain ⟨oldSHA, newSHA, refName⟩ := triple
        by_cases hz : newSHA = zeros40
        · rw [claimedLineCommits, hp] at hhead
          simp [hz] at hhead
        · obtain ⟨s, hs⟩ :=
            hrev (goFields (if oldSHA = zeros40 then newSHA ++ " --not --all"
                            else oldSHA ++ ".." ++ newSHA))
          have hlist : listCommits o (if oldSHA = zeros40 then newSHA ++ " --not --all"
                            else oldSHA ++ ".." ++ newSHA) = Except.ok (parseGitLines s) := by
            simp [listCommits, hs]
          have hcl : claimedLineCommits o line = parseGitLines s := by
            simp [claimedLineCommits, hp, hz, hlist]
          rw [hcl] at hhead
          have herr := verifyCommits_fail o (parseGitLines s) c1 out hhead hc
          rcases hvc : verifyCommits o (parseGitLines s) with ⟨r, tr⟩
          rw [hvc] at herr
          simp only at herr
          subst herr
          simp [processLines, hp, hz, hlist, hvc]
    | none =>
      rw [hhead, optionNoneOr] at hfind
      have hall : ∀ x ∈ claimedLineCommits o line, o.verify x = none := by
        intro x hx
        have := List.find?_eq_none.mp hhead x hx
        simpa using this
      have ih := processLines_fail o hrev rest c out hfind hc
      cases hp : parseRefLine line with
      | none => simpa [processLines, hp] using ih
      | some triple =>
        obtain ⟨oldSHA, newSHA, refName⟩ := triple
        by_cases hz : newSHA = zeros40
        · simpa [processLines, hp, hz] using ih
        · obtain ⟨s, hs⟩ :=
            hrev (goFields (if oldSHA = zeros40 then newSHA ++ " --not --all"
                            else oldSHA ++ ".." ++ newSHA))
          have hlist : listCommits o (if oldSHA = zeros40 then newSHA ++ " --not --all"
                            else oldSHA ++ ".." ++ newSHA) = Except.ok (parseGitLines s) := by
            simp [listCommits, hs]
          have hcl : claimedLineCommits o line = parseGitLines s := by
            simp [claimedLineCommits, hp, hz, hlist]
          rw [hcl] at hall
          have hverify := verifyCommits_allOk o (parseGitLines s) hall
          simp [processLines, hp, hz, hlist, hverify, ih]

/-! ## Claims -/

/-- C1: for every stdin line that splits into exactly three fields
(old, new, ref), a line whose `new` is the 40-zero SHA is skipped with no
commit verified, and otherwise the commits submitted to signature
verification are exactly those listed by `git rev-list` over
`new --not --all` when `old` is all-zeros and over `old..new` otherwise —
stated as: when the environment is set, the key store is non-empty,
`git rev-list` succeeds and every submitted commit verifies, the
submission trace of `verifyPreReceive` equals `claimedSubmission`, the
per-line rendering of exactly that rule. -/
theorem origin_c1 (env : PreEnv) (o : PreOracle) (lines : List String)
    (hd : env.dataPath ≠ "") (hr : env.repoPath ≠ "")
    (hb : ∃ s, buildAllowedSigners o = Except.ok s)
    (hrev : ∀ args, ∃ s, o.revList args = Except.ok s)
    (hver : ∀ c, o.verify c = none) :
    verifyPreReceive env o lines = (Except.ok (), claimedSubmission o lines) := by
  obtain ⟨s, hs⟩ := hb
  unfold verifyPreReceive
  rw [if_neg (by simp [hd, hr]), hs]
  exact processLines_allOk o hrev hver lines

/-- Concrete oracle for the C1 witness: two rev-listed commits for every
range, all signatures valid. -/
def c1Oracle : PreOracle :=
  { sqlite := Except.ok "ssh-ed25519 AAAA key",
    revList := fun _ => Except.ok "c1\nc2",
    verify := fun _ => none }

theorem origin_c1_witness :
    verifyPreReceive ⟨"/data", "/data/repos/p.git"⟩ c1Oracle
      ["a b refs/heads/main",
       "0000000000000000000000000000000000000000 n refs/heads/new",
       "x 0000000000000000000000000000000000000000 refs/heads/gone",
       "not a ref update line"]
      = (Except.ok (), ["c1", "c2", "c1", "c2"]) := by
  rw [origin_c1 ⟨"/data", "/data/repos/p.git"⟩ c1Oracle _ (by decide) (by decide)
      ⟨"* ssh-ed25519 AAAA key\n", by rfl⟩ (fun _ => ⟨"c1\nc2", rfl⟩) (fun _ => rfl)]
  rfl

/-- C2: a push containing a commit that fails `git verify-commit` is
rejected: `VerifyPreReceive` returns the error
`commit <short>: unsigned or invalid signature` (plus the verifier
output), where `<short>` is the 7-character prefix of the failing commit
SHA; the hook then writes one stderr record
`origin: push rejected — <err>` whose first line carries the short SHA
and the reason, and exits 1. -/
theorem origin_c2 (env : PreEnv) (o : PreOracle) (lines : List String) (c out : String)
    (hd : env.dataPath ≠ "") (hr : env.repoPath ≠ "")
    (hb : ∃ s, buildAllowedSigners o = Except.ok s)
    (hrev : ∀ args, ∃ s, o.revList args = Except.ok s)
    (hfail : (claimedSubmission o lines).find? (fun x => (o.verify x).isSome) = some c)
    (hc : o.verify c = some out)
    (hlen : 7 ≤ c.length) :
    (verifyPreReceive env o lines).1 =
      Except.error ("commit " ++ goSlice c 7 ++ ": unsigned or invalid signature\n" ++ out)
    ∧ (goSlice c 7).length = 7
    ∧ runHookPre (verifyPreReceive env o lines).1 =
        (1, "origin: push rejected — "
            ++ ("commit " ++ goSlice c 7 ++ ": unsigned or invalid signature\n" ++ out)
            ++ "\n")
    ∧ ∃ restStr, (runHookPre (verifyPreReceive env o lines).1).2 =
        "origin: push rejected" ++ restStr := by
  obtain ⟨s, hs⟩ := hb
  have hmain : (verifyPreReceive env o lines).1 =
      Except.error ("commit " ++ goSlice c 7 ++ ": unsigned or invalid signature\n" ++ out) := by
    unfold verifyPreReceive
    rw [if_neg (by simp [hd, hr]), hs]
    exact processLines_fail o hrev lines c out hfail hc
  refine ⟨hmain, ?_, ?_, ?_⟩
  · have h1 : (goSlice c 7).length = min 7 c.data.length := by
      rw [show (goSlice c 7).length = (c.data.take 7).length from rfl, List.length_take]
    have h2 : c.length = c.data.length := rfl
    omega
  · rw [hmain]; rfl
  · refine ⟨" — " ++ ("commit " ++ goSlice c 7 ++ ": unsigned or invalid signature\n" ++ out)
        ++ "\n", ?_⟩
    rw [hmain]
    show "origin: push rejected — "
        ++ ("commit " ++ goSlice c 7 ++ ": unsigned or invalid signature\n" ++ out) ++ "\n" = _
    rw [show ("origin: push rejected — " : String) = "origin: push rejected" ++ " — " from rfl]
    apply String.ext
    simp only [String.data_append, List.append_assoc]

/-- Concrete oracle for the C2 witness: one rev-listed commit whose
signature check fails with output `sigerr`. -/
def c2Oracle : PreOracle :=
  { sqlite := Except.ok "ssh-ed25519 AAAA key",
    revList := fun _ => Except.ok "abcdef0123456789abcdef0123456789abcdef01",
    verify := fun c =>
      if c = "abcdef0123456789abcdef0123456789abcdef01" then some "sigerr" else none }

theorem origin_c2_witness :
    runHookPre (verifyPreReceive ⟨"/data", "/data/repos/p.git"⟩ c2Oracle
        ["a b refs/heads/main"]).1 =
      (1, "origin: push rejected — commit abcdef0: unsigned or invalid signature\nsigerr\n") := by
  have h := origin_c2 ⟨"/data", "/data/repos/p.git"⟩ c2Oracle ["a b refs/heads/main"]
    "abcdef0123456789abcdef0123456789abcdef01" "sigerr" (by decide) (by decide)
    ⟨"* ssh-ed25519 AAAA key\n", by rfl⟩ (fun _ => ⟨"abcdef0123456789abcdef0123456789abcdef01", rfl⟩)
    rfl rfl (by decide)
  rw [h.2.2.1]
  rfl

/-- C3: with zero Signing Keys in the store, the pre-receive verifier
fails before looking at any stdin line: for every stdin content — also a
deletion-only push — it returns the fatal allowed-signers error, submits
no commit for verification, and the hook exits 1. -/
theorem origin_c3 (env : PreEnv) (o : PreOracle)
    (hd : env.dataPath ≠ "") (hr : env.repoPath ≠ "")
    (hsql : o.sqlite = Except.ok (sshKeysQueryOutput [])) :
    ∀ lines : List String,
      verifyPreReceive env o lines =
        (Except.error "build allowed signers: no SSH keys found in database", [])
      ∧ (runHookPre (verifyPreReceive env o lines).1).1 = 1 := by
  intro lines
  have hb : buildAllowedSigners o =
      Except.error "no SSH keys found in database" := by
    unfold buildAllowedSigners
    rw [hsql]
    rfl
  have hmain : verifyPreReceive env o lines =
      (Except.error "build allowed signers: no SSH keys found in database", []) := by
    unfold verifyPreReceive
    rw [if_neg (by simp [hd, hr]), hb]
    rfl
  exact ⟨hmain, by rw [hmain]; rfl⟩

/-- Oracle for the C3 witness: the sqlite3 query returns the output for an
empty `ssh_keys` table. -/
def c3Oracle : PreOracle :=
  { sqlite := Except.ok (sshKeysQueryOutput []),
    revList := fun _ => Except.ok "",
    verify := fun _ => none }

theorem origin_c3_witness :
    verifyPreReceive ⟨"/data", "/data/repos/p.git"⟩ c3Oracle
        ["x 0000000000000000000000000000000000000000 refs/heads/gone"] =
      (Except.error "build allowed signers: no SSH keys found in database", [])
    ∧ (runHookPre (verifyPreReceive ⟨"/data", "/data/repos/p.git"⟩ c3Oracle
        ["x 0000000000000000000000000000000000000000 refs/heads/gone"]).1).1 = 1 :=
  origin_c3 ⟨"/data", "/data/repos/p.git"⟩ c3Oracle (by decide) (by decide) rfl
    ["x 0000000000000000000000000000000000000000 refs/heads/gone"]

/-- C4: under the store's uniqueness constraint on fingerprints
(`fingerprint TEXT NOT NULL UNIQUE` in schema.sql, rendered as `Nodup`),
`publicKeyHandler` accepts exactly when one row carries the connecting
key's fingerprint, and rejects whenever the store query fails. -/
theorem origin_c4 (fps : List String) (fp : String) (hnd : fps.Nodup) :
    (publicKeyHandler true fps fp = true ↔ fps.count fp = 1)
    ∧ publicKeyHandler false fps fp = false := by
  have hle : fps.count fp ≤ 1 := List.nodup_iff_count_le_one.mp hnd fp
  constructor
  · unfold publicKeyHandler
    by_cases h0 : fps.count fp = 0
    · simp [h0]
    · simp [h0]
      omega
  · rfl

theorem origin_c4_witness :
    (publicKeyHandler true ["SHA256:aaa", "SHA256:bbb"] "SHA256:aaa" = true
      ↔ (["SHA256:aaa", "SHA256:bbb"] : List String).count "SHA256:aaa" = 1)
    ∧ publicKeyHandler false ["SHA256:aaa", "SHA256:bbb"] "SHA256:aaa" = false :=
  origin_c4 ["SHA256:aaa", "SHA256:bbb"] "SHA256:aaa" (by decide)

theorem gitInfoRefs_notReadable (store : List RepoRow) (uploadOut raw : String)
    (h : canReadRepo store (sanitizeRepoPath raw) = false) :
    gitInfoRefs store uploadOut raw "git-upload-pack" = renderStatus 404 := by
  unfold gitInfoRefs
  rw [if_neg (by simp), h]
  rfl

/-- C5: on the upload-pack advertisement endpoint, a private repository
and a nonexistent one are indistinguishable — the full responses (status,
headers and body) coincide, the status is 404, and no private repository
ever draws a 403 from this endpoint. -/
theorem origin_c5 (store : List RepoRow) (uploadOut : String) (raw1 raw2 n : String)
    (h1 : repoLookup store (sanitizeRepoPath raw1) = some (n, true))
    (h2 : repoLookup store (sanitizeRepoPath raw2) = none) :
    gitInfoRefs store uploadOut raw1 "git-upload-pack"
      = gitInfoRefs store uploadOut raw2 "git-upload-pack"
    ∧ (gitInfoRefs store uploadOut raw1 "git-upload-pack").status = 404
    ∧ ∀ raw m, repoLookup store (sanitizeRepoPath raw) = some (m, true) →
        (gitInfoRefs store uploadOut raw "git-upload-pack").status ≠ 403 := by
  have e1 : gitInfoRefs store uploadOut raw1 "git-upload-pack" = renderStatus 404 :=
    gitInfoRefs_notReadable store uploadOut raw1 (by unfold canReadRepo; rw [h1]; rfl)
  have e2 : gitInfoRefs store uploadOut raw2 "git-upload-pack" = renderStatus 404 :=
    gitInfoRefs_notReadable store uploadOut raw2 (by unfold canReadRepo; rw [h2])
  refine ⟨e1.trans e2.symm, by rw [e1]; rfl, ?_⟩
  intro raw m hm
  have e3 : gitInfoRefs store uploadOut raw "git-upload-pack" = renderStatus 404 :=
    gitInfoRefs_notReadable store uploadOut raw (by unfold canReadRepo; rw [hm]; rfl)
  rw [e3]
  decide

theorem origin_c5_witness :
    gitInfoRefs [("secret", true)] "" "secret" "git-upload-pack"
      = gitInfoRefs [("secret", true)] "" "nonexistent" "git-upload-pack"
    ∧ (gitInfoRefs [("secret", true)] "" "secret" "git-upload-pack").status = 404
    ∧ ∀ raw m, repoLookup [("secret", true)] (sanitizeRepoPath raw) = some (m, true) →
        (gitInfoRefs [("secret", true)] "" raw "git-upload-pack").status ≠ 403 :=
  origin_c5 [("secret", true)] "" "secret" "nonexistent" "secret" (by rfl) (by rfl)

/-- C6: `service=git-receive-pack` on info/refs and POST git-receive-pack
both answer 403 with body `push over HTTP is not supported — use SSH`
(plus the newline `http.Error` appends), for every repository name and
store; any other service value than git-upload-pack answers 400. -/
theorem origin_c6 (store : List RepoRow) (uploadOut raw : String) :
    gitInfoRefs store uploadOut raw "git-receive-pack"
      = httpError "push over HTTP is not supported — use SSH" 403
    ∧ (gitInfoRefs store uploadOut raw "git-receive-pack").status = 403
    ∧ (gitInfoRefs store uploadOut raw "git-receive-pack").body
      = "push over HTTP is not supported — use SSH\n"
    ∧ gitReceivePackDenied = httpError "push over HTTP is not supported — use SSH" 403
    ∧ gitReceivePackDenied.status = 403
    ∧ ∀ service : String, service ≠ "git-upload-pack" → service ≠ "git-receive-pack" →
        (gitInfoRefs store uploadOut raw service).status = 400 := by
  refine ⟨rfl, rfl, rfl, rfl, rfl, ?_⟩
  intro service hs1 hs2
  unfold gitInfoRefs
  rw [if_pos hs1, if_neg hs2]
  rfl

theorem origin_c6_witness :
    (gitInfoRefs [] "" "repo" "git-receive-pack").status = 403
    ∧ (gitInfoRefs [] "" "repo" "git-receive-pack").body
      = "push over HTTP is not supported — use SSH\n"
    ∧ (gitInfoRefs [] "" "repo" "git-annex-shell").status = 400 :=
  ⟨(origin_c6 [] "" "repo").2.1, (origin_c6 [] "" "repo").2.2.1,
   (origin_c6 [] "" "repo").2.2.2.2.2 "git-annex-shell" (by decide) (by decide)⟩

theorem strMkLength (l : List Char) : (String.mk l).length = l.length := rfl

theorem hexPairsLength :
    ∀ bs : List Nat,
      ((bs.map (fun b => [hexChar (b / 16 % 16), hexChar (b % 16)])).flatten).length
        = 2 * bs.length
  | [] => rfl
  | b :: t => by
    simp only [List.map_cons, List.flatten_cons, List.length_append, List.length_cons,
      List.length_nil, hexPairsLength t]
    omega

theorem hexEncode_length (bs : List Nat) : (hexEncode bs).length = 2 * bs.length := by
  unfold hexEncode
  rw [strMkLength, hexPairsLength]

/-- The sixteen lowercase hexadecimal digits. -/
def hexAlphabet : List Char := "0123456789abcdef".data

theorem hexChar_mem (n : Nat) (h : n < 16) : hexChar n ∈ hexAlphabet := by
  interval_cases n <;> decide

theorem hexEncode_chars :
    ∀ bs : List Nat, ∀ ch ∈ (hexEncode bs).data, ch ∈ hexAlphabet
  | [] => by intro ch hch; simp [hexEncode] at hch
  | b :: t => by
    intro ch hch
    have hdata : (hexEncode (b :: t)).data
        = hexChar (b / 16 % 16) :: hexChar (b % 16) :: (hexEncode t).data := by
      simp [hexEncode]
    rw [hdata] at hch
    simp only [List.mem_cons] at hch
    rcases hch with h | h | h
    · subst h; exact hexChar_mem _ (Nat.mod_lt _ (by omega))
    · subst h; exact hexChar_mem _ (Nat.mod_lt _ (by omega))
    · exact hexEncode_chars t ch h

theorem beBytes_length (n v : Nat) : (beBytes n v).length = n := by
  simp [beBytes]

theorem foldRounds_length (kf wf : Nat → Nat) :
    ∀ (l : List Nat) (st : List Nat), st.length = 8 →
      (l.foldl (fun s i => sha256Round (kf i) (wf i) s) st).length = 8
  | [], st, h => h
  | i :: t, st, h => by
    rw [List.foldl_cons]
    exact foldRounds_length kf wf t _ rfl

theorem sha256Block_length (st block : List Nat) (h : st.length = 8) :
    (sha256Block st block).length = 8 := by
  unfold sha256Block
  rw [List.length_zipWith]
  rw [foldRounds_length (fun i => sha256K.getD i 0)
    (fun i => (sha256Schedule (blockWords block)).getD i 0) (List.range 64) st h, h]
  decide

theorem foldBlocks_length :
    ∀ (blocks : List (List Nat)) (st : List Nat), st.length = 8 →
      (blocks.foldl sha256Block st).length = 8
  | [], st, h => h
  | b :: t, st, h => by
    rw [List.foldl_cons]
    exact foldBlocks_length t _ (sha256Block_length st b h)

theorem flattenMap4_length :
    ∀ l : List Nat, ((l.map (beBytes 4)).flatten).length = 4 * l.length
  | [] => rfl
  | x :: t => by
    simp only [List.map_cons, List.flatten_cons, List.length_append, beBytes_length,
      List.length_cons, flattenMap4_length t]
    omega

theorem sha256_length (msg : List Nat) : (sha256 msg).length = 32 := by
  unfold sha256
  rw [flattenMap4_length, foldBlocks_length (chunkList 64 (sha256Pad msg)) sha256H0 rfl]

theorem hmacSha256_length (key msg : List Nat) : (hmacSha256 key msg).length = 32 := by
  unfold hmacSha256
  exact sha256_length _

/-- C7: every webhook delivery carries `Content-Type: application/json`,
`User-Agent: Origin-Webhook/1.0` and `X-Origin-Event: push`; with a
non-empty secret `s` and body `b` the `X-Origin-Signature` header is
exactly `sha256=` followed by the lowercase-hex HMAC-SHA256 of `b` keyed
with `s` (64 lowercase hex digits); with an empty secret the header is
absent. -/
theorem origin_c7 (wh : Webhook) (payload : List Nat) :
    (wh.secret ≠ "" →
      headerGet "X-Origin-Signature" (deliverHeaders wh payload)
        = some ("sha256=" ++ hexEncode (hmacSha256 (utf8Bytes wh.secret) payload))
      ∧ (hexEncode (hmacSha256 (utf8Bytes wh.secret) payload)).length = 64
      ∧ ∀ ch ∈ (hexEncode (hmacSha256 (utf8Bytes wh.secret) payload)).data, ch ∈ hexAlphabet)
    ∧ (wh.secret = "" →
        headerGet "X-Origin-Signature" (deliverHeaders wh payload) = none)
    ∧ headerGet "Content-Type" (deliverHeaders wh payload) = some "application/json"
    ∧ headerGet "User-Agent" (deliverHeaders wh payload) = some "Origin-Webhook/1.0"
    ∧ headerGet "X-Origin-Event" (deliverHeaders wh payload) = some "push" := by
  refine ⟨?_, ?_, ?_, ?_, ?_⟩
  · intro hne
    refine ⟨?_, ?_, hexEncode_chars _⟩
    · unfold deliverHeaders
      rw [if_pos hne]
      rfl
    · rw [hexEncode_length, hmacSha256_length]
  · intro he
    unfold deliverHeaders
    rw [if_neg (by simp [he])]
    rfl
  · unfold deliverHeaders
    by_cases h : wh.secret = ""
    · rw [if_neg (by simp [h])]; rfl
    · rw [if_pos h]; rfl
  · unfold deliverHeaders
    by_cases h : wh.secret = ""
    · rw [if_neg (by simp [h])]; rfl
    · rw [if_pos h]; rfl
  · unfold deliverHeaders
    by_cases h : wh.secret = ""
    · rw [if_neg (by simp [h])]; rfl
    · rw [if_pos h]; rfl

/-- Concrete webhook for the C7 witness (the secret of spec scenario S4). -/
def c7Webhook : Webhook := { url := "https://example.test/hook", secret := "topsecret" }

theorem origin_c7_witness :
    headerGet "X-Origin-Signature" (deliverHeaders c7Webhook (utf8Bytes "body"))
      = some ("sha256=" ++ hexEncode (hmacSha256 (utf8Bytes "topsecret") (utf8Bytes "body")))
    ∧ headerGet "X-Origin-Event" (deliverHeaders c7Webhook (utf8Bytes "body")) = some "push"
    ∧ headerGet "X-Origin-Signature"
        (deliverHeaders { url := "https://example.test/hook", secret := "" }
          (utf8Bytes "body")) = none :=
  ⟨((origin_c7 c7Webhook (utf8Bytes "body")).1 (by decide)).1,
   (origin_c7 c7Webhook (utf8Bytes "body")).2.2.2.2,
   (origin_c7 { url := "https://example.test/hook", secret := "" }
     (utf8Bytes "body")).2.1 rfl⟩

/-- The single-quote character, written by code point to keep it out of
the source text. -/
def singleQuote : String := String.mk [Char.ofNat 39]

/-- C8 (evaluation at the failing input): for the quoted path
`'/repo.git'` that git clients send, `sanitizeRepoName` resolves
`/repo.git`, not `repo` — the quotes are trimmed only after the
leading-slash and `.git` trims, which therefore never fire; the same
happens for the scp-style quoted path `'repo.git'`.  The unquoted path
`/repo.git` does resolve to `repo`. -/
theorem origin_c8 :
    sanitizeRepoName (singleQuote ++ "/repo.git" ++ singleQuote) = "/repo.git"
    ∧ sanitizeRepoName (singleQuote ++ "/repo.git" ++ singleQuote) ≠ "repo"
    ∧ sanitizeRepoName (singleQuote ++ "repo.git" ++ singleQuote) = "repo.git"
    ∧ sanitizeRepoName "/repo.git" = "repo" := by
  refine ⟨by rfl, by decide, by rfl, by rfl⟩

/-- C9 (amended): `ensureHostKey` writes a new key only when reading the
key file fails (in particular when it is absent); whenever the file is
readable, its contents are untouched, and when it also parses, the parsed
signer is returned. -/
theorem origin_c9 (parse : String → Option String) (newKeyData newSigner : String)
    (fs : HostKeyFile) :
    ((ensureHostKey parse newKeyData newSigner fs).2 ≠ fs → readKeyFile fs = none)
    ∧ (∀ data, readKeyFile fs = some data →
        (ensureHostKey parse newKeyData newSigner fs).2 = fs
        ∧ ∀ sg, parse data = some sg →
            (ensureHostKey parse newKeyData newSigner fs).1 = Except.ok sg) := by
  have hstep : ∀ data, readKeyFile fs = some data →
      ensureHostKey parse newKeyData newSigner fs
        = match parse data with
          | none => (Except.error "parse host key", fs)
          | some signer => (Except.ok signer, fs) := by
    intro data hread
    unfold ensureHostKey
    rw [hread]
  constructor
  · intro hne
    cases hread : readKeyFile fs with
    | none => rfl
    | some data =>
      exfalso
      apply hne
      rw [hstep data hread]
      cases parse data <;> rfl
  · intro data hread
    constructor
    · rw [hstep data hread]
      cases parse data <;> rfl
    · intro sg hp
      rw [hstep data hread, hp]

/-- C9 counterexample: a host-key file that exists but cannot be read
(`os.ReadFile` fails, e.g. mode `0200` or an I/O fault) is regenerated
and overwritten, so "generates only when the key file is absent" and
"a file that exists before startup has the same contents after startup"
do not hold for it. -/
theorem origin_c9_counterexample :
    keyFileExists (HostKeyFile.unreadable "old-host-key-pem") = true
    ∧ keyFileContents ((ensureHostKey (fun _ => none) "new-host-key-pem" "new-signer"
          (HostKeyFile.unreadable "old-host-key-pem")).2)
        ≠ keyFileContents (HostKeyFile.unreadable "old-host-key-pem") :=
  ⟨rfl, by decide⟩

theorem origin_c9_witness :
    (ensureHostKey (fun s => some ("signer-of " ++ s)) "new-key" "new-signer"
        (HostKeyFile.readable "key-pem")).2 = HostKeyFile.readable "key-pem"
    ∧ (ensureHostKey (fun s => some ("signer-of " ++ s)) "new-key" "new-signer"
        (HostKeyFile.readable "key-pem")).1 = Except.ok ("signer-of " ++ "key-pem") := by
  have h := (origin_c9 (fun s => some ("signer-of " ++ s)) "new-key" "new-signer"
    (HostKeyFile.readable "key-pem")).2 "key-pem" rfl
  exact ⟨h.1, h.2 ("signer-of " ++ "key-pem") rfl⟩

theorem parseRefLine_none_iff (l : String) :
    parseRefLine l = none ↔ (goFields l).length ≠ 3 := by
  unfold parseRefLine
  rcases hf : goFields l with _ | ⟨a, _ | ⟨b, _ | ⟨c, _ | ⟨d, t⟩⟩⟩⟩ <;> simp

theorem processLines_filter (o : PreOracle) :
    ∀ lines : List String,
      processLines o (lines.filter (fun l => (goFields l).length == 3))
        = processLines o lines
  | [] => rfl
  | line :: rest => by
    have ih := processLines_filter o rest
    by_cases h3 : (goFields line).length = 3
    · rw [List.filter_cons_of_pos (by simpa using h3)]
      cases hp : parseRefLine line with
      | none => simp [processLines, hp, ih]
      | some triple =>
        obtain ⟨oldSHA, newSHA, refName⟩ := triple
        by_cases hz : newSHA = zeros40
        · simp [processLines, hp, hz, ih]
        · cases hl : listCommits o (if oldSHA = zeros40 then newSHA ++ " --not --all"
              else oldSHA ++ ".." ++ newSHA) with
          | error e => simp [processLines, hp, hz, hl]
          | ok commits =>
            rcases hvc : verifyCommits o commits with ⟨r, tr⟩
            cases r with
            | error e => simp [processLines, hp, hz, hl, hvc]
            | ok u => simp [processLines, hp, hz, hl, hvc, ih]
    · rw [List.filter_cons_of_neg (by simpa using h3)]
      have hp : parseRefLine line = none := (parseRefLine_none_iff line).mpr h3
      simp [processLines, hp, ih]

theorem pushEvents_filter (env : PostEnv) (now : String) :
    ∀ lines : List String,
      (lines.filter (fun l => (goFields l).length == 3)).filterMap (pushEventOfLine env now)
        = lines.filterMap (pushEventOfLine env now)
  | [] => rfl
  | line :: rest => by
    have ih := pushEvents_filter env now rest
    by_cases h3 : (goFields line).length = 3
    · rw [List.filter_cons_of_pos (by simpa using h3)]
      simp [List.filterMap_cons, ih]
    · rw [List.filter_cons_of_neg (by simpa using h3)]
      have hp : parseRefLine line = none := (parseRefLine_none_iff line).mpr h3
      have hev : pushEventOfLine env now line = none := by
        unfold pushEventOfLine
        rw [hp]
      simp [List.filterMap_cons, hev, ih]

/-- C10: a stdin line that does not split into exactly three fields is
ignored by both hook subprocesses — removing all such lines changes
neither the pre-receive verifier's result and submission trace nor the
post-receive dispatcher's result and event trace, so such a line never
rejects a push, never produces a Push Event, and later lines are still
processed. -/
theorem origin_c10 (penv : PreEnv) (o : PreOracle) (env : PostEnv)
    (loadRes : Except String (List Webhook)) (now : String) (lines : List String) :
    verifyPreReceive penv o (lines.filter (fun l => (goFields l).length == 3))
      = verifyPreReceive penv o lines
    ∧ runPostReceive env loadRes now (lines.filter (fun l => (goFields l).length == 3))
      = runPostReceive env loadRes now lines := by
  constructor
  · unfold verifyPreReceive
    by_cases he : penv.dataPath = "" ∨ penv.repoPath = ""
    · rw [if_pos he, if_pos he]
    · rw [if_neg he, if_neg he]
      cases buildAllowedSigners o with
      | error e => rfl
      | ok c => exact processLines_filter o lines
  · unfold runPostReceive
    by_cases he : env.dataPath = "" ∨ env.repoName = ""
    · rw [if_pos he, if_pos he]
    · rw [if_neg he, if_neg he]
      cases loadRes with
      | error e => rfl
      | ok whs =>
        by_cases hw : whs.length = 0
        · simp [hw]
        · simp [hw, pushEvents_filter env now lines]

end Origin
